import Mathlib

/-!
Verification of the process-supervision core of modd (`src/proc.go`) against
its natural-language specification.

The embedding is shallow: Go structs become Lean structures, pointer fields
become `Option`, and the externally visible effects of each operation
(log lines, signal deliveries, waits on process exit) are collected in an
explicit event trace.  OS behaviour that the code consults (pipe creation,
process start, exit status, stream contents, the wall clock) is supplied as
explicit input data, so every definition is executable.
-/

namespace Modd

/-- Observable effects of the code, in program order.  `header` carries the
label of the log stream it was emitted on; `signal`/`wait` record signal
delivery to and blocking wait on an OS process identified by its pid.
`wait` appearing in a trace means the call did not return before the
awaited process had terminated. -/
inductive Event
  | header (label : String)
  | say (msg : String)
  | warn (msg : String)
  | shout (msg : String)
  | notice (channel msg : String)
  | signal (pid : Nat) (sig : Nat)
  | wait (pid : Nat)
  deriving DecidableEq, Repr

/-- The `Shout` messages of a trace, in order. -/
def shoutMsgs (tr : List Event) : List String :=
  tr.filterMap (fun e => match e with | .shout m => some m | _ => none)

/-- The stream labels of the `header` events of a trace, in order.  Each call
into `RunProc` emits exactly one header on its own labeled stream, so this
lists the commands that were actually invoked. -/
def headerLabels (tr : List Event) : List String :=
  tr.filterMap (fun e => match e with | .header l => some l | _ => none)

/-- The `NoticeAs` lines of a trace: channel and message, in order. -/
def noticeMsgs (tr : List Event) : List (String × String) :=
  tr.filterMap (fun e => match e with | .notice c m => some (c, m) | _ => none)

/-- `conf.Daemon`: a daemon specification — command text plus restart
signal (proc.go imports these from the conf package). -/
structure ConfDaemon where
  command : String
  restartSignal : Nat
  deriving DecidableEq, Repr

/-- `conf.Prep`: a prep specification — just the command text. -/
structure Prep where
  command : String
  deriving DecidableEq, Repr

/-- The `daemon` struct (proc.go:95-100).  The `cmd *exec.Cmd` pointer is
`none` when nil; when set, we keep the pid of the underlying OS process.
The log stream is represented by its label. -/
structure daemon where
  conf : ConfDaemon
  logLabel : String
  cmd : Option Nat := none
  stop : Bool := false
  deriving DecidableEq, Repr

/-- The loop guard of `daemon.Run` (proc.go:104): the loop runs another
iteration, i.e. makes another spawn attempt, iff `d.stop != true`. -/
def daemon.runLoopContinues (d : daemon) : Bool :=
  !d.stop

/-- `daemon.Restart` (proc.go:139-144): if the `cmd` pointer is non-nil,
emit a header and deliver the configured restart signal to the process;
otherwise do nothing. -/
def daemon.Restart (d : daemon) : List Event :=
  match d.cmd with
  | some pid => [.header d.logLabel, .signal pid d.conf.restartSignal]
  | none => []

/-- `daemon.Shutdown` (proc.go:146-152): set the stop flag; if the `cmd`
pointer is non-nil, deliver `sig` to the process and block on `c.Wait()`
until it has exited.  The `cmd` field is not cleared. -/
def daemon.Shutdown (d : daemon) (sig : Nat) : daemon × List Event :=
  let d' : daemon := { d with stop := true }
  match d'.cmd with
  | some pid => (d', [.signal pid sig, .wait pid])
  | none => (d', [])

/-- `DaemonPen` (proc.go:154-158): a nil-able slice of daemons guarded by a
mutex.  The mutex serialises the operations below; each operation is
modelled as an atomic function on this state. -/
structure DaemonPen where
  daemons : Option (List daemon) := none
  deriving DecidableEq, Repr

/-- Daemon construction inside `DaemonPen.Start` (proc.go:166-173): each
element is `daemon{conf: dmn, log: ...}`, so `cmd` and `stop` take their
zero values (nil pointer, false). -/
def mkDaemon (c : ConfDaemon) (label : String) : daemon :=
  { conf := c, logLabel := label }

/-- `DaemonPen.Start` (proc.go:163-177): build one daemon per spec and
replace the pen's collection.  (Launching each `Run` loop is a separate
concurrent task; its behaviour is modelled by `spawnTimes` and
`daemon.runLoopContinues` below.) -/
def DaemonPen.Start (dp : DaemonPen) (confs : List (ConfDaemon × String)) : DaemonPen :=
  { dp with daemons := some (confs.map (fun p => mkDaemon p.1 p.2)) }

/-- `DaemonPen.Restart` (proc.go:180-188): nothing if no collection exists;
otherwise `for _, d := range *dp.daemons { d.Restart() }`.  `Restart` only
reads the copied struct, so only the traces matter. -/
def DaemonPen.Restart (dp : DaemonPen) : List Event :=
  match dp.daemons with
  | none => []
  | some ds => (ds.map daemon.Restart).flatten

/-- `DaemonPen.Shutdown` (proc.go:191-199): nothing if no collection
exists; otherwise `for _, d := range *dp.daemons { d.Shutdown(sig) }`.
In Go, `range` over a `[]daemon` slice yields a by-value copy of each
element, so the `d.stop = true` write inside `d.Shutdown` lands on the
per-iteration copy and is discarded when the iteration ends; the signal
and wait still reach the real OS process through the copied `cmd`
pointer.  The pen's slice elements are therefore unchanged. -/
def DaemonPen.Shutdown (dp : DaemonPen) (sig : Nat) : DaemonPen × List Event :=
  match dp.daemons with
  | none => (dp, [])
  | some ds => (dp, (ds.map (fun d => (daemon.Shutdown d sig).2)).flatten)

/-- The behaviour the operating system exhibits for one spawned command:
whether each pipe-creation step fails, whether `Start` fails, whether
`Wait` reports an abnormal or non-zero exit (`waitErr`), the
human-readable termination description `ProcessState.String()`, the
consumed user CPU time, and the lines the process writes to each stream. -/
structure ProcBehavior where
  stdoutPipeErr : Option String := none
  stderrPipeErr : Option String := none
  startErr : Option String := none
  waitErr : Option String := none
  stateString : String := "exit status 0"
  userTime : Nat := 0
  stdoutLines : List String := []
  stderrLines : List String := []
  deriving DecidableEq, Repr

/-- `RunProc` (proc.go:53-79): emit the stream's header; create the two
pipes, returning the error on failure; attach the two `logOutput`
streamers (stderr to `Warn`, stdout to `Say`); start the process,
returning the error on failure; wait for exit.  On a `Wait` error, `Shout`
the termination description and return the error; on success, emit the
`cmdstats` notice with the user CPU time and return no error.  The stream
is represented by its label; the streamers' sink calls appear as
`warn`/`say` events (no process output exists when `Start` failed). -/
def RunProc (cmd label : String) (b : ProcBehavior) : Option String × List Event :=
  match b.stdoutPipeErr with
  | some e => (some e, [.header label])
  | none =>
    match b.stderrPipeErr with
    | some e => (some e, [.header label])
    | none =>
      match b.startErr with
      | some e => (some e, [.header label])
      | none =>
        match b.waitErr with
        | some e =>
          (some e, .header label :: (b.stderrLines.map Event.warn
            ++ b.stdoutLines.map Event.say ++ [.shout b.stateString]))
        | none =>
          (none, .header label :: (b.stderrLines.map Event.warn
            ++ b.stdoutLines.map Event.say
            ++ [.notice "cmdstats" ("run time: " ++ toString b.userTime)]))

/-- `RunPreps` (proc.go:82-93): run each prep in order through `RunProc`
on its own stream labelled from the command text, stopping at and
returning the first error; `none` if the list is exhausted.  The `env`
argument supplies the OS behaviour of each command. -/
def RunPreps (preps : List Prep) (env : String → ProcBehavior) : Option String × List Event :=
  match preps with
  | [] => (none, [])
  | p :: rest =>
    let r := RunProc p.command ("prep: " ++ p.command) (env p.command)
    match r.1 with
    | some e => (some e, r.2)
    | none => ((RunPreps rest env).1, r.2 ++ (RunPreps rest env).2)

/-- The byte class of Go's regexp `\s`: tab, newline, form feed, carriage
return, space.  Command strings are Go strings, i.e. byte sequences —
`len` and the slice `in[:n]` in `niceHeader` index bytes — so they are
modelled as lists of byte values. -/
def isWS (b : Nat) : Bool :=
  b == 9 || b == 10 || b == 12 || b == 13 || b == 32

/-- `ws.ReplaceAllString(in, " ")` (proc.go:28) with
`ws = regexp.MustCompile of \s\s+` (proc.go:160): every maximal run of
two or more whitespace bytes is replaced by one space byte; a lone
whitespace byte is not matched by `\s\s+` and stays as it is. -/
def condenseWS : List Nat → List Nat
  | [] => []
  | [b] => [b]
  | b :: c :: rest =>
    if isWS b then
      if isWS c then 32 :: condenseWS ((c :: rest).dropWhile isWS)
      else b :: condenseWS (c :: rest)
    else b :: condenseWS (c :: rest)
termination_by l => l.length
decreasing_by
  · have h := (List.dropWhile_sublist (l := c :: rest) isWS).length_le
    simp only [List.length_cons] at h ⊢
    omega
  · simp only [List.length_cons]
    omega
  · simp only [List.length_cons]
    omega

/-- `lineLimit` (proc.go:19). -/
def lineLimit : Nat := 80

/-- The bytes of the `postamble` constant "..." (proc.go:20). -/
def postamble : List Nat := [46, 46, 46]

/-- `niceHeader` (proc.go:25-35), restricted to the visible command text
it assembles (the colour escape codes and the caller-chosen preamble
label are outside the text the claim bounds): condense whitespace; if the
byte length then exceeds `lineLimit - len(postamble)` = 77, keep only the
first 77 bytes (Go byte slicing `in[:lineLimit-len(postamble)]`) and
append the postamble. -/
def niceHeader (inp : List Nat) : List Nat :=
  let i := condenseWS inp
  if lineLimit - postamble.length < i.length then
    i.take (lineLimit - postamble.length) ++ postamble
  else i

/-- A 78-byte command text with no whitespace: 76 times 'a' followed by
the two UTF-8 bytes of a two-byte character. -/
def longHeaderInput : List Nat := List.replicate 76 97 ++ [195, 169]

/-- The newline character, at which `bufio.Reader.ReadLine` splits. -/
def NL : Char := Char.ofNat 10

/-- One call to `bufio.Reader.ReadLine` with buffer capacity `bufSize` on
the remaining stream `input`: `none` is the error return (end of input —
for `logOutput`, the closed pipe), otherwise the returned line and the
rest of the stream.  When no newline appears within the buffer, the full
buffer is returned and the continuation flag (which `logOutput` discards)
is set; when a newline is found it is consumed and not returned; at end
of input the remaining bytes are returned as a line without newline. -/
def readLine (bufSize : Nat) (input : List Char) : Option (List Char × List Char) :=
  match input with
  | [] => none
  | _ =>
    let pre := input.takeWhile (fun c => c ≠ NL)
    if bufSize ≤ pre.length then some (input.take bufSize, input.drop bufSize)
    else some (pre, (input.drop pre.length).drop 1)

/-- The loop of `logOutput` (proc.go:43-49) with an explicit iteration
bound: read a line, return silently on a read error, otherwise forward
the line to the sink and loop. -/
def logOutputAux (bufSize : Nat) : Nat → List Char → List (List Char)
  | 0, _ => []
  | fuel + 1, input =>
    match readLine bufSize input with
    | none => []
    | some (line, rest) => line :: logOutputAux bufSize fuel rest

/-- `logOutput` (proc.go:41-50): repeatedly `ReadLine` from the stream,
forwarding each returned slice to the sink (`out(string(line))`) and
discarding the continuation flag, until a read error (end of input).  The
result is the list of sink calls, in order.  The bound `input.length + 1`
is enough iterations for any positive buffer size (`logOutputAux_fuel`
below), so this is the loop run to completion. -/
def logOutput (bufSize : Nat) (input : List Char) : List (List Char) :=
  logOutputAux bufSize (input.length + 1) input

/-- Go's `time.Second` in nanoseconds, the unit of `time.Duration`. -/
def timeSecond : Nat := 1000000000

/-- `MinRestart` (proc.go:17): the minimum amount of time between daemon
restarts, `1 * time.Second`. -/
def MinRestart : Nat := 1 * timeSecond

/-- The restart throttle of `daemon.Run` (proc.go:106-109): with
`lastStart` the previous launch timestamp and `now` the reading of
`time.Now()` at the check, the requested sleep is `MinRestart - since`
when `since := now - lastStart` is below `MinRestart`, and nothing
otherwise.  Time is in nanoseconds since the zero `time.Time`, so the
first iteration's `lastStart` is `0`. -/
def sleepFor (lastStart now : Nat) : Nat :=
  if now - lastStart < MinRestart then MinRestart - (now - lastStart) else 0

/-- One iteration's launch timestamp (proc.go:110): `lastStart =
time.Now()` right after the optional sleep.  `slack` is the wall-clock
time the iteration lost beyond the requested sleep (scheduling delay;
`time.Sleep` never wakes early, so slack is non-negative). -/
def launchTime (lastStart now slack : Nat) : Nat :=
  now + sleepFor lastStart now + slack

/-- The launch timestamps of the successive iterations of `daemon.Run`'s
loop, given for each iteration the clock reading at the throttle check
and that iteration's sleep slack.  Each iteration makes exactly one spawn
attempt at its launch timestamp, whatever the previous attempt's outcome
(proc.go:111-135: every failure path is `continue`). -/
def spawnTimes (lastStart : Nat) : List (Nat × Nat) → List Nat
  | [] => []
  | (now, slack) :: rest =>
    launchTime lastStart now slack :: spawnTimes (launchTime lastStart now slack) rest

/-- Clock sanity for a sequence of iterations: each iteration's reading at
the throttle check is not earlier than the previous iteration's launch
timestamp (the wall clock is monotone and the check happens after the
previous launch). -/
def clockOK (lastStart : Nat) : List (Nat × Nat) → Bool
  | [] => true
  | (now, slack) :: rest =>
    decide (lastStart ≤ now) && clockOK (launchTime lastStart now slack) rest

/-- Behaviour of a command that runs and exits successfully. -/
def okBehavior : ProcBehavior := {}

/-- Behaviour of a command that starts but exits with status 1: `Wait`
returns an error and the termination description is "exit status 1". -/
def failBehavior : ProcBehavior :=
  { waitErr := some "exit status 1", stateString := "exit status 1" }

/-- Behaviour of a command whose stdout pipe cannot be created. -/
def pipeFailBehavior : ProcBehavior :=
  { stdoutPipeErr := some "pipe: too many open files" }

/-- An environment in which the command "false" fails and every other
command succeeds. -/
def envEx : String → ProcBehavior :=
  fun c => if c = "false" then failBehavior else okBehavior

/-- A concrete pen holding one started daemon: its `Run` loop has stored a
live process handle (pid 7) and its stop flag is unset. -/
def exampleDaemon : daemon :=
  { conf := { command := "devd .", restartSignal := 1 }, logLabel := "daemon: devd .",
    cmd := some 7, stop := false }

/-- A pen whose collection was populated and whose daemon is running. -/
def examplePen : DaemonPen :=
  { daemons := some [exampleDaemon] }

/-- C1: `DaemonPen.Shutdown` delivers the signal and waits on the process,
but because Go's `range` iterates over by-value copies of the `daemon`
structs, the stop flag of the daemon held in the pen's collection is never
set: after the call the collection still holds the daemon with
`stop = false`, so its `Run` loop guard still allows further spawn
attempts.  This contradicts the claim (and the evident intent of both
`DaemonPen.Shutdown`'s doc comment and the stop flag itself). -/
theorem daemonPen_shutdown_leaves_stop_unset :
    (DaemonPen.Shutdown examplePen 15).2 = [.signal 7 15, .wait 7]
    ∧ (DaemonPen.Shutdown examplePen 15).1.daemons = some [exampleDaemon]
    ∧ exampleDaemon.stop = false
    ∧ exampleDaemon.runLoopContinues = true := by
  refine ⟨rfl, rfl, rfl, rfl⟩

/-- C5 counterexample: after `daemon.Shutdown`, the `cmd` field still holds
the (now terminated) process, so `Restart` on the post-shutdown daemon
emits a header and delivers the restart signal — it is not a no-op, contrary
to the claim that the process handle is absent after shutdown. -/
theorem restart_after_shutdown_not_noop :
    ((daemon.Shutdown exampleDaemon 15).1).Restart
      = [.header "daemon: devd .", .signal 7 1]
    ∧ ((daemon.Shutdown exampleDaemon 15).1).cmd = some 7 := by
  refine ⟨rfl, rfl⟩

/-- C5 amended: a daemon's `cmd` handle is absent exactly on daemons that
have not yet recorded a successful start: construction (as in
`DaemonPen.Start`) leaves it `none`, and `Restart` is a no-op (no header,
no signal) precisely when `cmd` is `none`; `Shutdown`, however, leaves the
handle in place, so after shutdown `Restart` still emits a header and
signals the terminated process. -/
theorem restart_noop_iff_no_handle (d : daemon) (c : ConfDaemon) (label : String)
    (sig pid : Nat) (hlive : d.cmd = some pid) :
    (mkDaemon c label).cmd = none
    ∧ (mkDaemon c label).Restart = []
    ∧ (∀ d' : daemon, d'.cmd = none → d'.Restart = [])
    ∧ (daemon.Shutdown d sig).1.cmd = some pid
    ∧ (daemon.Shutdown d sig).1.Restart
        = [.header d.logLabel, .signal pid d.conf.restartSignal] := by
  refine ⟨rfl, rfl, ?_, ?_, ?_⟩
  · intro d' h
    simp [daemon.Restart, h]
  · simp [daemon.Shutdown, hlive]
  · simp [daemon.Shutdown, daemon.Restart, hlive]

/-- C5 amended, witness at a concrete daemon. -/
theorem restart_noop_iff_no_handle_witness :
    (mkDaemon { command := "x", restartSignal := 2 } "daemon: x").cmd = none
    ∧ (mkDaemon { command := "x", restartSignal := 2 } "daemon: x").Restart = []
    ∧ (∀ d' : daemon, d'.cmd = none → d'.Restart = [])
    ∧ (daemon.Shutdown exampleDaemon 15).1.cmd = some 7
    ∧ (daemon.Shutdown exampleDaemon 15).1.Restart
        = [.header exampleDaemon.logLabel, .signal 7 exampleDaemon.conf.restartSignal] :=
  restart_noop_iff_no_handle exampleDaemon
    { command := "x", restartSignal := 2 } "daemon: x" 15 7 rfl

/-- C6: when a daemon holds a live process handle, `Shutdown sig` delivers
exactly `sig` to that process and then blocks on its exit: the trace is
the signal delivery followed by the wait, and the wait (hence the
process's termination) precedes the call's return. -/
theorem shutdown_signals_then_waits (d : daemon) (sig pid : Nat)
    (hlive : d.cmd = some pid) :
    (daemon.Shutdown d sig).2 = [.signal pid sig, .wait pid]
    ∧ (daemon.Shutdown d sig).1.stop = true := by
  constructor
  · simp [daemon.Shutdown, hlive]
  · simp [daemon.Shutdown, hlive]

/-- C6 witness at a concrete daemon. -/
theorem shutdown_signals_then_waits_witness :
    (daemon.Shutdown exampleDaemon 15).2 = [.signal 7 15, .wait 7]
    ∧ (daemon.Shutdown exampleDaemon 15).1.stop = true :=
  shutdown_signals_then_waits exampleDaemon 15 7 rfl

@[simp] theorem shoutMsgs_nil : shoutMsgs [] = [] := rfl

@[simp] theorem shoutMsgs_cons (e : Event) (tr : List Event) :
    shoutMsgs (e :: tr)
      = (match e with | .shout m => [m] | _ => []) ++ shoutMsgs tr := by
  cases e <;> simp [shoutMsgs, List.filterMap_cons]

@[simp] theorem shoutMsgs_append (a b : List Event) :
    shoutMsgs (a ++ b) = shoutMsgs a ++ shoutMsgs b := by
  simp [shoutMsgs]

@[simp] theorem shoutMsgs_map_warn (l : List String) :
    shoutMsgs (l.map Event.warn) = [] := by
  induction l with
  | nil => rfl
  | cons x xs ih => simp [ih]

@[simp] theorem shoutMsgs_map_say (l : List String) :
    shoutMsgs (l.map Event.say) = [] := by
  induction l with
  | nil => rfl
  | cons x xs ih => simp [ih]

@[simp] theorem headerLabels_nil : headerLabels [] = [] := rfl

@[simp] theorem headerLabels_cons (e : Event) (tr : List Event) :
    headerLabels (e :: tr)
      = (match e with | .header l => [l] | _ => []) ++ headerLabels tr := by
  cases e <;> simp [headerLabels, List.filterMap_cons]

@[simp] theorem headerLabels_append (a b : List Event) :
    headerLabels (a ++ b) = headerLabels a ++ headerLabels b := by
  simp [headerLabels]

@[simp] theorem headerLabels_map_warn (l : List String) :
    headerLabels (l.map Event.warn) = [] := by
  induction l with
  | nil => rfl
  | cons x xs ih => simp [ih]

@[simp] theorem headerLabels_map_say (l : List String) :
    headerLabels (l.map Event.say) = [] := by
  induction l with
  | nil => rfl
  | cons x xs ih => simp [ih]

@[simp] theorem noticeMsgs_nil : noticeMsgs [] = [] := rfl

@[simp] theorem noticeMsgs_cons (e : Event) (tr : List Event) :
    noticeMsgs (e :: tr)
      = (match e with | .notice c m => [(c, m)] | _ => []) ++ noticeMsgs tr := by
  cases e <;> simp [noticeMsgs, List.filterMap_cons]

@[simp] theorem noticeMsgs_append (a b : List Event) :
    noticeMsgs (a ++ b) = noticeMsgs a ++ noticeMsgs b := by
  simp [noticeMsgs]

@[simp] theorem noticeMsgs_map_warn (l : List String) :
    noticeMsgs (l.map Event.warn) = [] := by
  induction l with
  | nil => rfl
  | cons x xs ih => simp [ih]

@[simp] theorem noticeMsgs_map_say (l : List String) :
    noticeMsgs (l.map Event.say) = [] := by
  induction l with
  | nil => rfl
  | cons x xs ih => simp [ih]

/-- Every call into `RunProc` emits exactly one header, on its own stream. -/
theorem headerLabels_runProc (cmd label : String) (b : ProcBehavior) :
    headerLabels (RunProc cmd label b).2 = [label] := by
  unfold RunProc
  cases b.stdoutPipeErr with
  | some e => simp
  | none =>
    cases b.stderrPipeErr with
    | some e => simp
    | none =>
      cases b.startErr with
      | some e => simp
      | none =>
        cases b.waitErr with
        | some e => simp
        | none => simp

/-- If every prep in the list succeeds, `RunPreps` returns no error. -/
theorem runPreps_ok (env : String → ProcBehavior) :
    ∀ ps : List Prep,
      (∀ q ∈ ps, (RunProc q.command ("prep: " ++ q.command) (env q.command)).1 = none) →
      (RunPreps ps env).1 = none := by
  intro ps
  induction ps with
  | nil => intro _; rfl
  | cons q qs ih =>
    intro h
    have hq := h q (List.mem_cons_self q qs)
    have hqs := fun r hr => h r (List.mem_cons_of_mem q hr)
    simp [RunPreps, hq, ih hqs]

/-- C2 counterexample: a pipe/stream-setup failure in `RunProc` is
propagated as an error but produces no high-severity (`Shout`) log line at
all — the claim that all three failure classes are both logged at high
severity and propagated fails for this class. -/
theorem runProc_pipe_error_silent :
    (RunProc "true" "prep: true" pipeFailBehavior).1 = some "pipe: too many open files"
    ∧ shoutMsgs (RunProc "true" "prep: true" pipeFailBehavior).2 = [] := by
  refine ⟨rfl, rfl⟩

/-- C2 amended: in `RunProc`, pipe/stream-setup failures and process-start
failures are propagated as errors to the caller but are not logged at
high severity; only an abnormal/non-zero exit is both logged at high
severity — one `Shout` carrying the OS termination description — and
propagated as an error. -/
theorem runProc_error_logging (cmd label : String) (b : ProcBehavior) :
    (∀ e, b.stdoutPipeErr = some e →
      (RunProc cmd label b).1 = some e ∧ shoutMsgs (RunProc cmd label b).2 = [])
    ∧ (∀ e, b.stdoutPipeErr = none → b.stderrPipeErr = some e →
      (RunProc cmd label b).1 = some e ∧ shoutMsgs (RunProc cmd label b).2 = [])
    ∧ (∀ e, b.stdoutPipeErr = none → b.stderrPipeErr = none → b.startErr = some e →
      (RunProc cmd label b).1 = some e ∧ shoutMsgs (RunProc cmd label b).2 = [])
    ∧ (∀ e, b.stdoutPipeErr = none → b.stderrPipeErr = none → b.startErr = none →
      b.waitErr = some e →
      (RunProc cmd label b).1 = some e
      ∧ shoutMsgs (RunProc cmd label b).2 = [b.stateString]) := by
  refine ⟨?_, ?_, ?_, ?_⟩
  · intro e h
    simp [RunProc, h]
  · intro e h1 h2
    simp [RunProc, h1, h2]
  · intro e h1 h2 h3
    simp [RunProc, h1, h2, h3]
  · intro e h1 h2 h3 h4
    simp [RunProc, h1, h2, h3, h4]

/-- C2 amended, witness: the abnormal-exit class at a concrete behaviour. -/
theorem runProc_error_logging_witness :
    (RunProc "false" "prep: false" failBehavior).1 = some "exit status 1"
    ∧ shoutMsgs (RunProc "false" "prep: false" failBehavior).2 = ["exit status 1"] :=
  (runProc_error_logging "false" "prep: false" failBehavior).2.2.2 "exit status 1"
    rfl rfl rfl rfl

/-- C7: once pipes are set up and the process has started, `RunProc`
after process exit behaves as claimed: on a `Wait` error it emits exactly
one high-severity line, carrying the termination description, as the last
event before returning the exit error; on success it emits the
informational `cmdstats` timing line with the consumed user CPU time and
returns no error (and shouts nothing). -/
theorem runProc_exit_logging (cmd label : String) (b : ProcBehavior)
    (h1 : b.stdoutPipeErr = none) (h2 : b.stderrPipeErr = none)
    (h3 : b.startErr = none) :
    (∀ e, b.waitErr = some e →
      (RunProc cmd label b).1 = some e
      ∧ shoutMsgs (RunProc cmd label b).2 = [b.stateString]
      ∧ ∃ pre, (RunProc cmd label b).2 = pre ++ [.shout b.stateString])
    ∧ (b.waitErr = none →
      (RunProc cmd label b).1 = none
      ∧ noticeMsgs (RunProc cmd label b).2
          = [("cmdstats", "run time: " ++ toString b.userTime)]
      ∧ shoutMsgs (RunProc cmd label b).2 = []) := by
  constructor
  · intro e h4
    refine ⟨?_, ?_, ?_⟩
    · simp [RunProc, h1, h2, h3, h4]
    · simp [RunProc, h1, h2, h3, h4]
    · refine ⟨.header label :: (b.stderrLines.map Event.warn ++ b.stdoutLines.map Event.say), ?_⟩
      simp [RunProc, h1, h2, h3, h4]
  · intro h4
    refine ⟨?_, ?_, ?_⟩
    · simp [RunProc, h1, h2, h3, h4]
    · simp [RunProc, h1, h2, h3, h4]
    · simp [RunProc, h1, h2, h3, h4]

/-- C7 witness: the abnormal-exit branch at a concrete behaviour. -/
theorem runProc_exit_logging_witness :
    (RunProc "false" "prep: false" failBehavior).1 = some "exit status 1"
    ∧ shoutMsgs (RunProc "false" "prep: false" failBehavior).2 = ["exit status 1"]
    ∧ ∃ pre, (RunProc "false" "prep: false" failBehavior).2
        = pre ++ [.shout failBehavior.stateString] :=
  (runProc_exit_logging "false" "prep: false" failBehavior rfl rfl rfl).1
    "exit status 1" rfl

/-- C3: `RunPreps` runs preps in order; if the commands before `p` all
succeed and `p` fails with error `e`, the call returns exactly `e` and
the invoked commands — read off the one header each `RunProc` call emits
on its labelled stream — are exactly the preps up to and including `p`,
so the preps after `p` are never invoked; the empty sequence returns no
error and invokes nothing, and an all-successful sequence returns no
error. -/
theorem runPreps_first_error (ps1 ps2 : List Prep) (p : Prep)
    (env : String → ProcBehavior) (e : String)
    (h1 : ∀ q ∈ ps1, (RunProc q.command ("prep: " ++ q.command) (env q.command)).1 = none)
    (h2 : (RunProc p.command ("prep: " ++ p.command) (env p.command)).1 = some e) :
    (RunPreps (ps1 ++ p :: ps2) env).1 = some e
    ∧ headerLabels (RunPreps (ps1 ++ p :: ps2) env).2
        = (ps1 ++ [p]).map (fun q => "prep: " ++ q.command)
    ∧ RunPreps ([] : List Prep) env = (none, [])
    ∧ (∀ ps : List Prep,
        (∀ q ∈ ps, (RunProc q.command ("prep: " ++ q.command) (env q.command)).1 = none) →
        (RunPreps ps env).1 = none) := by
  refine ⟨?_, ?_, rfl, runPreps_ok env⟩
  · induction ps1 with
    | nil => simp [RunPreps, h2]
    | cons q qs ih =>
      have hq := h1 q (List.mem_cons_self q qs)
      have hqs := fun r hr => h1 r (List.mem_cons_of_mem q hr)
      simp [RunPreps, hq, ih hqs]
  · induction ps1 with
    | nil => simp [RunPreps, h2, headerLabels_runProc]
    | cons q qs ih =>
      have hq := h1 q (List.mem_cons_self q qs)
      have hqs := fun r hr => h1 r (List.mem_cons_of_mem q hr)
      simp [RunPreps, hq, headerLabels_runProc, ih hqs]

/-- C3 witness at a concrete three-prep sequence whose middle prep fails. -/
theorem runPreps_first_error_witness :
    (RunPreps ([Prep.mk "a"] ++ Prep.mk "false" :: [Prep.mk "b"]) envEx).1
        = some "exit status 1"
    ∧ headerLabels (RunPreps ([Prep.mk "a"] ++ Prep.mk "false" :: [Prep.mk "b"]) envEx).2
        = ([Prep.mk "a"] ++ [Prep.mk "false"]).map (fun q => "prep: " ++ q.command)
    ∧ RunPreps ([] : List Prep) envEx = (none, [])
    ∧ (∀ ps : List Prep,
        (∀ q ∈ ps, (RunProc q.command ("prep: " ++ q.command) (envEx q.command)).1 = none) →
        (RunPreps ps envEx).1 = none) :=
  runPreps_first_error [Prep.mk "a"] [Prep.mk "b"] (Prep.mk "false") envEx "exit status 1"
    (by intro q hq; simp at hq; subst hq; rfl) rfl

/-- After the throttle, an iteration's launch timestamp is at least
`MinRestart` past the previous launch timestamp. -/
theorem launchTime_ge (lastStart now slack : Nat) (h : lastStart ≤ now) :
    lastStart + MinRestart ≤ launchTime lastStart now slack := by
  unfold launchTime sleepFor
  split <;> omega

/-- C4: under a monotone clock, consecutive launch timestamps of a
daemon's `Run` loop are separated by at least `MinRestart` (one second in
nanoseconds), whatever clock readings and sleep slacks the iterations
see; moreover the first launch after a previous launch at `lastStart` is
no earlier than `lastStart + MinRestart`, and there is no retry cap:
every iteration yields exactly one spawn attempt, however many there
are. -/
theorem run_spawns_throttled (lastStart : Nat) (evs : List (Nat × Nat))
    (h : clockOK lastStart evs = true) :
    List.Chain' (fun a b => a + MinRestart ≤ b) (spawnTimes lastStart evs)
    ∧ (∀ t ∈ (spawnTimes lastStart evs).head?, lastStart + MinRestart ≤ t)
    ∧ (spawnTimes lastStart evs).length = evs.length := by
  induction evs generalizing lastStart with
  | nil => exact ⟨List.chain'_nil, by simp [spawnTimes], rfl⟩
  | cons ev rest ih =>
    obtain ⟨now, slack⟩ := ev
    rw [clockOK] at h
    have h1 : lastStart ≤ now := by
      have := (Bool.and_eq_true _ _).mp h
      exact of_decide_eq_true this.1
    have h2 : clockOK (launchTime lastStart now slack) rest = true :=
      ((Bool.and_eq_true _ _).mp h).2
    obtain ⟨ihChain, ihHead, ihLen⟩ := ih (launchTime lastStart now slack) h2
    refine ⟨?_, ?_, ?_⟩
    · rw [spawnTimes, List.chain'_cons']
      exact ⟨ihHead, ihChain⟩
    · intro t ht
      rw [spawnTimes, List.head?_cons, Option.mem_def, Option.some_inj] at ht
      rw [← ht]
      exact launchTime_ge lastStart now slack h1
    · rw [spawnTimes, List.length_cons, ihLen, List.length_cons]

/-- C4 witness: a daemon whose command dies instantly, observed for two
iterations; the two spawn attempts are one second apart. -/
theorem run_spawns_throttled_witness :
    List.Chain' (fun a b => a + MinRestart ≤ b) (spawnTimes 0 [(5, 0), (1000000005, 0)])
    ∧ (∀ t ∈ (spawnTimes 0 [(5, 0), (1000000005, 0)]).head?, 0 + MinRestart ≤ t)
    ∧ (spawnTimes 0 [(5, 0), (1000000005, 0)]).length = 2 :=
  run_spawns_throttled 0 [(5, 0), (1000000005, 0)] (by decide)

/-- C10: on the first iteration of `daemon.Run`, `lastStart` is the zero
time, i.e. `0`; as long as the wall clock reads at least `MinRestart`
past the zero time — `time.Now()` is roughly two millennia past Go's zero
`time.Time` — the elapsed-since check is not below `MinRestart`, the
throttle requests no sleep, and the first spawn attempt happens at the
clock reading itself (plus scheduling slack). -/
theorem first_iteration_no_sleep (now slack : Nat) (h : MinRestart ≤ now) :
    sleepFor 0 now = 0 ∧ launchTime 0 now slack = now + slack := by
  unfold launchTime sleepFor
  split <;> omega

/-- C10 witness at a realistic wall-clock reading (2023 in Unix
nanoseconds). -/
theorem first_iteration_no_sleep_witness :
    sleepFor 0 1700000000000000000 = 0
    ∧ launchTime 0 1700000000000000000 3 = 1700000000000000000 + 3 :=
  first_iteration_no_sleep 1700000000000000000 3 (by decide)

/-- A successful `ReadLine` consumes at least one character of the stream
when the buffer capacity is positive. -/
theorem readLine_consumes (bufSize : Nat) (hb : 1 ≤ bufSize)
    (input line rest : List Char) (h : readLine bufSize input = some (line, rest)) :
    rest.length < input.length := by
  cases input with
  | nil => simp [readLine] at h
  | cons a as =>
    simp only [readLine] at h
    split at h <;>
      simp only [Option.some.injEq, Prod.mk.injEq] at h <;>
      obtain ⟨h1, h2⟩ := h <;> subst h2 <;>
      simp only [List.length_drop, List.length_cons] <;> omega

/-- `ReadLine` succeeds on a nonempty stream. -/
theorem readLine_isSome (bufSize : Nat) (a : Char) (as : List Char) :
    (readLine bufSize (a :: as)).isSome = true := by
  simp only [readLine]
  split <;> rfl

/-- With a positive buffer capacity, any iteration bound beyond the
stream length runs `logOutput`'s loop to completion. -/
theorem logOutputAux_fuel (bufSize : Nat) (hb : 1 ≤ bufSize) :
    ∀ fuel input, input.length < fuel →
      logOutputAux bufSize fuel input = logOutput bufSize input := by
  intro fuel
  induction fuel using Nat.strong_induction_on with
  | _ fuel ih =>
    intro input hlen
    cases fuel with
    | zero => omega
    | succ f =>
      rw [logOutput]
      rw [logOutputAux]
      rw [logOutputAux]
      cases hrl : readLine bufSize input with
      | none => rfl
      | some pr =>
        obtain ⟨line, rest⟩ := pr
        have hc := readLine_consumes bufSize hb input line rest hrl
        simp only
        rw [ih f (by omega) rest (by omega)]
        rw [ih input.length (by omega) rest (by omega)]

/-- One loop iteration of `logOutput`: a successful read makes one sink
call and continues on the rest of the stream. -/
theorem logOutput_step (bufSize : Nat) (hb : 1 ≤ bufSize)
    (input line rest : List Char) (h : readLine bufSize input = some (line, rest)) :
    logOutput bufSize input = line :: logOutput bufSize rest := by
  have hc := readLine_consumes bufSize hb input line rest h
  rw [logOutput, logOutputAux, h]
  show line :: logOutputAux bufSize input.length rest = line :: logOutput bufSize rest
  rw [logOutputAux_fuel bufSize hb input.length rest hc]

/-- A nonempty stream produces at least one sink call. -/
theorem logOutput_length_pos (bufSize : Nat) (a : Char) (as : List Char) :
    1 ≤ (logOutput bufSize (a :: as)).length := by
  rw [logOutput, logOutputAux]
  cases hrl : readLine bufSize (a :: as) with
  | none =>
    have := readLine_isSome bufSize a as
    rw [hrl] at this
    simp at this
  | some pr => simp

/-- `takeWhile`-up-to-newline of a newline-free prefix. -/
theorem takeWhile_append_NL (l rest : List Char) (hnl : NL ∉ l) :
    (l ++ NL :: rest).takeWhile (fun c => c ≠ NL) = l := by
  induction l with
  | nil => simp [List.takeWhile_cons]
  | cons a l' ih =>
    have ha : a ≠ NL := fun hEq => hnl (hEq ▸ List.mem_cons_self a l')
    have hnl' : NL ∉ l' := fun hm => hnl (List.mem_cons_of_mem a hm)
    simp only [List.cons_append, List.takeWhile_cons, decide_eq_true_eq]
    rw [if_pos ha]
    rw [ih hnl']

/-- `ReadLine` on a stream starting with a newline-terminated line that
fits in the buffer: the line is returned and the newline consumed. -/
theorem readLine_short (bufSize : Nat) (l rest : List Char)
    (hnl : NL ∉ l) (hlen : l.length < bufSize) :
    readLine bufSize (l ++ NL :: rest) = some (l, rest) := by
  have hpre := takeWhile_append_NL l rest hnl
  cases l with
  | nil =>
    simp only [List.nil_append] at hpre ⊢
    simp only [readLine, hpre]
    rw [if_neg (by simp; omega)]
    simp
  | cons a l' =>
    simp only [List.cons_append] at hpre ⊢
    simp only [readLine, hpre]
    rw [if_neg (by simp at hlen ⊢; omega)]
    have hdrop : ((a :: (l' ++ NL :: rest)).drop (a :: l').length).drop 1 = rest := by
      rw [List.length_cons, List.drop_succ_cons, List.drop_left]
      rfl
    rw [hdrop]

/-- `ReadLine` on a stream whose first line overflows the buffer: the
full buffer is returned (the discarded continuation flag is set) and the
remainder of the line stays in the stream. -/
theorem readLine_long (bufSize : Nat) (l rest : List Char)
    (hnl : NL ∉ l) (hlen : bufSize ≤ l.length) :
    readLine bufSize (l ++ NL :: rest)
      = some (l.take bufSize, l.drop bufSize ++ NL :: rest) := by
  have hpre := takeWhile_append_NL l rest hnl
  cases l with
  | nil =>
    simp only [List.length_nil, Nat.le_zero] at hlen
    subst hlen
    simp only [List.nil_append] at hpre ⊢
    simp only [readLine, hpre]
    simp
  | cons a l' =>
    simp only [List.cons_append] at hpre ⊢
    simp only [readLine, hpre]
    rw [if_pos (by simpa using hlen)]
    rw [← List.cons_append]
    rw [List.take_append_of_le_length hlen]
    rw [List.drop_append_of_le_length hlen]

/-- Newline-terminated lines that fit the buffer are forwarded one sink
call per line, in order. -/
theorem logOutput_short_lines (bufSize : Nat) (hb : 1 ≤ bufSize) :
    ∀ ls : List (List Char), (∀ l ∈ ls, NL ∉ l ∧ l.length < bufSize) →
      logOutput bufSize ((ls.map (fun l => l ++ [NL])).flatten) = ls := by
  intro ls
  induction ls with
  | nil => intro _; rfl
  | cons l ls' ih =>
    intro h
    obtain ⟨hnl, hlen⟩ := h l (List.mem_cons_self l ls')
    have h' := fun x hx => h x (List.mem_cons_of_mem l hx)
    have hflat : (((l :: ls').map (fun x => x ++ [NL])).flatten)
        = l ++ NL :: ((ls'.map (fun x => x ++ [NL])).flatten) := by
      simp
    rw [hflat,
      logOutput_step bufSize hb _ l _ (readLine_short bufSize l _ hnl hlen),
      ih h']

/-- The sink calls for one newline-terminated line concatenate back to
the line: content is preserved even when it is split across calls. -/
theorem logOutput_join (bufSize : Nat) (hb : 1 ≤ bufSize) :
    ∀ n (l : List Char), l.length ≤ n → NL ∉ l →
      (logOutput bufSize (l ++ [NL])).flatten = l := by
  intro n
  induction n using Nat.strong_induction_on with
  | _ n ih =>
    intro l hn hnl
    by_cases hc : l.length < bufSize
    · rw [show l ++ [NL] = l ++ NL :: [] from rfl,
        logOutput_step bufSize hb _ l _ (readLine_short bufSize l [] hnl hc)]
      rw [show logOutput bufSize ([] : List Char) = [] from rfl]
      simp
    · push_neg at hc
      rw [show l ++ [NL] = l ++ NL :: [] from rfl,
        logOutput_step bufSize hb _ _ _ (readLine_long bufSize l [] hnl hc)]
      have hdnl : NL ∉ l.drop bufSize := fun hm => hnl (List.mem_of_mem_drop hm)
      have hlt : (l.drop bufSize).length ≤ l.length - 1 := by
        simp only [List.length_drop]; omega
      have hn' : l.length - 1 < n := by omega
      rw [List.flatten_cons,
        show l.drop bufSize ++ NL :: [] = l.drop bufSize ++ [NL] from rfl,
        ih (l.length - 1) hn' (l.drop bufSize) hlt hdnl]
      exact List.take_append_drop bufSize l

/-- A line longer than the buffer is delivered in at least two sink
calls. -/
theorem logOutput_long_multi (bufSize : Nat) (hb : 1 ≤ bufSize)
    (l : List Char) (hnl : NL ∉ l) (hlong : bufSize < l.length) :
    2 ≤ (logOutput bufSize (l ++ [NL])).length := by
  rw [show l ++ [NL] = l ++ NL :: [] from rfl,
    logOutput_step bufSize hb _ _ _ (readLine_long bufSize l [] hnl (Nat.le_of_lt hlong))]
  cases hsh : l.drop bufSize ++ NL :: [] with
  | nil =>
    have : (l.drop bufSize ++ NL :: []).length = 0 := by rw [hsh]; rfl
    simp at this
  | cons a as =>
    rw [List.length_cons]
    have := logOutput_length_pos bufSize a as
    omega

/-- C8: `logOutput` forwards the stream to its sink one buffered read at
a time, discarding `ReadLine`'s continuation flag: newline-terminated
lines shorter than the reader's buffer are forwarded with exactly one
sink call per source line, in stream order; a single source line longer
than the buffer is delivered in two or more separate sink calls whose
concatenation is the line; and end of input (the closed pipe) ends the
loop silently, with no sink call. -/
theorem logOutput_line_delivery (bufSize : Nat) (ls : List (List Char))
    (long : List Char) (hb : 1 ≤ bufSize)
    (hshort : ∀ l ∈ ls, NL ∉ l ∧ l.length < bufSize)
    (hlnl : NL ∉ long) (hlong : bufSize < long.length) :
    logOutput bufSize ((ls.map (fun l => l ++ [NL])).flatten) = ls
    ∧ 2 ≤ (logOutput bufSize (long ++ [NL])).length
    ∧ (logOutput bufSize (long ++ [NL])).flatten = long
    ∧ logOutput bufSize [] = [] :=
  ⟨logOutput_short_lines bufSize hb ls hshort,
   logOutput_long_multi bufSize hb long hlnl hlong,
   logOutput_join bufSize hb long.length long (Nat.le_refl _) hlnl,
   rfl⟩

/-- C8 witness: buffer of 4; two short lines come through one sink call
each; the six-character line "abcdef" is split into several calls. -/
theorem logOutput_line_delivery_witness :
    logOutput 4 (([[ 'a', 'b'], ['c']].map (fun l => l ++ [NL])).flatten)
        = [[ 'a', 'b'], ['c']]
    ∧ 2 ≤ (logOutput 4 ([ 'a', 'b', 'c', 'd', 'e', 'f'] ++ [NL])).length
    ∧ (logOutput 4 ([ 'a', 'b', 'c', 'd', 'e', 'f'] ++ [NL])).flatten
        = [ 'a', 'b', 'c', 'd', 'e', 'f']
    ∧ logOutput 4 ([] : List Char) = [] :=
  logOutput_line_delivery 4 [[ 'a', 'b'], ['c']] [ 'a', 'b', 'c', 'd', 'e', 'f']
    (by decide) (by decide) (by decide) (by decide)

/-- `dropWhile` leaves a list alone when its head does not satisfy the
predicate. -/
theorem dropWhile_head_not (l : List Nat)
    (h : l.head?.all (fun b => !isWS b) = true) :
    l.dropWhile isWS = l := by
  cases l with
  | nil => rfl
  | cons a t =>
    simp only [List.head?_cons, Option.all_some, Bool.not_eq_true'] at h
    exact List.dropWhile_cons_of_neg (by simp [h])

/-- A maximal whitespace run of length at least two, enclosed by
non-whitespace on the left and (if anything) on the right, condenses to a
single space byte. -/
theorem condenseWS_run (xs r ys : List Nat)
    (hxs : ∀ b ∈ xs, isWS b = false)
    (hr : ∀ b ∈ r, isWS b = true)
    (hlen : 2 ≤ r.length)
    (hys : ys.head?.all (fun b => !isWS b) = true) :
    condenseWS (xs ++ r ++ ys) = xs ++ 32 :: condenseWS ys := by
  induction xs with
  | nil =>
    rcases r with _ | ⟨b, _ | ⟨c, r'⟩⟩
    · simp at hlen
    · simp at hlen
    have hb : isWS b = true := hr b (by simp)
    have hc : isWS c = true := hr c (by simp)
    have hr' : ∀ x ∈ c :: r', isWS x = true :=
      fun x hx => hr x (List.mem_cons_of_mem b hx)
    simp only [List.nil_append, List.cons_append]
    rw [condenseWS]
    rw [if_pos hb, if_pos hc]
    congr 1
    rw [show c :: (r' ++ ys) = (c :: r') ++ ys from rfl]
    rw [List.dropWhile_append_of_pos hr']
    rw [dropWhile_head_not ys hys]
  | cons a xs' ih =>
    have ha : isWS a = false := hxs a (List.mem_cons_self a xs')
    have hxs' : ∀ b ∈ xs', isWS b = false :=
      fun b hb => hxs b (List.mem_cons_of_mem a hb)
    have hne : ∃ w t, xs' ++ r ++ ys = w :: t := by
      cases hx : xs' ++ r ++ ys with
      | nil =>
        exfalso
        rw [List.append_assoc] at hx
        obtain ⟨h1, h2⟩ := List.append_eq_nil.mp hx
        obtain ⟨h3, h4⟩ := List.append_eq_nil.mp h2
        rw [h3] at hlen
        simp at hlen
      | cons w t => exact ⟨w, t, rfl⟩
    obtain ⟨w, t, hwt⟩ := hne
    simp only [List.cons_append] at hwt ⊢
    rw [hwt, condenseWS]
    have hna : ¬ isWS a = true := by simp [ha]
    rw [if_neg hna, ← hwt]
    congr 1
    exact ih hxs'

/-- A run-free input is left untouched by the whitespace condenser. -/
theorem condenseWS_of_no_ws :
    ∀ l : List Nat, (∀ b ∈ l, isWS b = false) → condenseWS l = l := by
  intro l
  induction l with
  | nil => intro _; rw [condenseWS]
  | cons b t ih =>
    intro h
    have hb : isWS b = false := h b (List.mem_cons_self b t)
    have ht : ∀ x ∈ t, isWS x = false := fun x hx => h x (List.mem_cons_of_mem b hx)
    cases t with
    | nil => rw [condenseWS]
    | cons c rest =>
      rw [condenseWS, if_neg (by simp [hb])]
      rw [ih ht]

/-- C9: `niceHeader`'s visible command text: every whitespace run of two
or more bytes condenses to a single space; the text never exceeds
`lineLimit` = 80 bytes; when the condensed text is longer than
77 = `lineLimit` minus the 3-byte postamble, it is cut to its first 77
bytes with "..." appended; and the cut is byte-indexed — on a 78-byte
whitespace-free input ending in a two-byte UTF-8 character, the first of
the character's two bytes (195) is kept and the second is dropped,
splitting the character. -/
theorem niceHeader_spec (xs r ys inp : List Nat)
    (hxs : ∀ b ∈ xs, isWS b = false)
    (hr : ∀ b ∈ r, isWS b = true)
    (hlen : 2 ≤ r.length)
    (hys : ys.head?.all (fun b => !isWS b) = true) :
    condenseWS (xs ++ r ++ ys) = xs ++ 32 :: condenseWS ys
    ∧ (niceHeader inp).length ≤ lineLimit
    ∧ (lineLimit - postamble.length < (condenseWS inp).length →
        niceHeader inp = (condenseWS inp).take (lineLimit - postamble.length) ++ postamble)
    ∧ niceHeader longHeaderInput = List.replicate 76 97 ++ [195] ++ postamble := by
  refine ⟨condenseWS_run xs r ys hxs hr hlen hys, ?_, ?_, ?_⟩
  · by_cases hcond : lineLimit - postamble.length < (condenseWS inp).length
    · simp only [niceHeader]
      rw [if_pos hcond]
      simp only [List.length_append, List.length_take, postamble, lineLimit,
        List.length_cons, List.length_nil] at hcond ⊢
      omega
    · simp only [niceHeader]
      rw [if_neg hcond]
      simp only [postamble, lineLimit, List.length_cons, List.length_nil] at hcond ⊢
      omega
  · intro h
    simp only [niceHeader]
    rw [if_pos h]
  · have hnws : ∀ b ∈ longHeaderInput, isWS b = false := by decide
    have hcw : condenseWS longHeaderInput = longHeaderInput :=
      condenseWS_of_no_ws _ hnws
    simp only [niceHeader, hcw]
    rw [if_pos (by decide)]
    decide

/-- C9 witness at a concrete input: "a", a two-byte whitespace run, then
"b " (trailing single space). -/
theorem niceHeader_spec_witness :
    condenseWS ([97] ++ [32, 9] ++ [98, 32]) = [97] ++ 32 :: condenseWS [98, 32]
    ∧ (niceHeader [97]).length ≤ lineLimit
    ∧ (lineLimit - postamble.length < (condenseWS [97]).length →
        niceHeader [97] = (condenseWS [97]).take (lineLimit - postamble.length) ++ postamble)
    ∧ niceHeader longHeaderInput = List.replicate 76 97 ++ [195] ++ postamble :=
  niceHeader_spec [97] [32, 9] [98, 32] [97]
    (by decide) (by decide) (by decide) (by decide)

end Modd
